import Mathlib

/-!
Verification of the finance_analyst_team orchestration core.

Shallow embedding of the routing, state-merge, history-compaction and
finalization logic of `src/finance_analysts/graph.py`, `agents.py` and
`state.py`.  External collaborators (the LLM decision/summarization/
composition calls and the market-data tools) are modelled as opaque
function parameters, exactly at the boundary the spec draws for them.
-/

namespace FinanceAnalysts

/-! ## String helpers modelling the Python string operations used by the code -/

/-- Model of Python `str.lower()` (the code only ever compares ASCII agent
names, for which `Char.toLower` agrees with Python). -/
def pyLower (s : String) : String := String.mk (s.data.map Char.toLower)

/-- Model of Python `str.strip()`: drop leading and trailing whitespace. -/
def pyStrip (s : String) : String :=
  String.mk (((s.data.dropWhile Char.isWhitespace).reverse.dropWhile Char.isWhitespace).reverse)

/-- Model of Python `s.replace(",", " ")` for the single-character pattern. -/
def pyReplaceCommas (s : String) : String :=
  String.mk (s.data.map (fun c => if c = ',' then ' ' else c))

/-- Helper for `pyWords`: accumulate the current word (reversed) while
scanning, splitting at whitespace runs. -/
def wordsAux : List Char → List Char → List String
  | [], acc => if acc.isEmpty then [] else [String.mk acc.reverse]
  | c :: cs, acc =>
    if c.isWhitespace then
      if acc.isEmpty then wordsAux cs [] else String.mk acc.reverse :: wordsAux cs []
    else wordsAux cs (c :: acc)

/-- Model of Python `str.split()` with no argument: split on runs of
whitespace, discarding empty tokens. -/
def pyWords (s : String) : List String := wordsAux s.data []

/-- Substring test on character lists (model of Python `needle in hay`). -/
def containsSub (needle : List Char) : List Char → Bool
  | [] => needle.isEmpty
  | c :: cs => needle.isPrefixOf (c :: cs) || containsSub needle cs

/-- Model of Python `needle in hay` for strings. -/
def pyIn (needle hay : String) : Bool := containsSub needle.data hay.data

/-- Model of Python `s.startswith(p)`. -/
def pyStartsWith (s p : String) : Bool := p.data.isPrefixOf s.data

/-! ## State model (`state.py`) -/

/-- The `results` field of `FinancialState`: a mapping from agent name to
textual output, modelled extensionally. -/
def ResultMap : Type := String → Option String

/-- The empty Result Set (start of a turn). -/
def emptyResults : ResultMap := fun _ => none

/-- The reducer declared on `FinancialState.results`:
`lambda x, y: \x7b**x, **y\x7d` — shallow key-union, the partial `y` wins per key. -/
def resultsReducer (x y : ResultMap) : ResultMap :=
  fun k => match y k with
    | some v => some v
    | none => x k

/-- A one-key partial update, as returned by each agent
(e.g. `return \x7b"results": \x7b"price": analysis\x7d\x7d`). -/
def singleResult (k v : String) : ResultMap :=
  fun q => if q = k then some v else none

/-- Model of Python `results.get(k, d)`. -/
def pyGetD (r : ResultMap) (k d : String) : String := (r k).getD d

/-- Two partial Result Set updates touch disjoint key sets. -/
def disjointR (x y : ResultMap) : Prop := ∀ k, x k = none ∨ y k = none

/-- Message roles (LangChain message classes used by the code). -/
inductive Role : Type
  | user
  | assistant
  | system
  | tool
deriving DecidableEq, BEq

/-- One Conversation Entry: a message with stable id, role and content. -/
structure Msg : Type where
  id : Nat
  role : Role
  content : String
deriving DecidableEq

/-- One element of a partial update to the `messages` field: either a new
message to append or a `RemoveMessage(id=...)` instruction. -/
inductive MsgUpdate : Type
  | add (m : Msg)
  | remove (id : Nat)
deriving DecidableEq

/-- The `add_messages` reducer on the `messages` field: new messages are
appended, `remove` entries delete by id. -/
def applyUpdates (messages : List Msg) (upds : List MsgUpdate) : List Msg :=
  upds.foldl
    (fun acc u =>
      match u with
      | MsgUpdate.add m => acc ++ [m]
      | MsgUpdate.remove i => acc.filter (fun m => m.id != i))
    messages

/-- Ids removed by a partial update. -/
def removeIds (upds : List MsgUpdate) : List Nat :=
  upds.filterMap fun u =>
    match u with
    | MsgUpdate.remove i => some i
    | _ => none

/-- Messages added by a partial update. -/
def addedMsgs (upds : List MsgUpdate) : List Msg :=
  upds.filterMap fun u =>
    match u with
    | MsgUpdate.add m => some m
    | _ => none

/-! ## Router (`agents.py`, `orchestrator`, the decision-parsing tail) -/

/-- The fixed enumerated set of work-unit names the orchestrator recognizes. -/
def agentNames : List String :=
  ["price", "fundamental", "trader", "portfolio_advisor", "reporter"]

/-- The decision-parsing tail of `orchestrator` (agents.py): given the raw
text of the decision collaborator's answer, compute the `next_agents`
partial.  The code does
`decision = response.content.strip().lower()`, tokenizes
`decision.replace(",", " ").split()`, keeps tokens in `agentNames`, and
returns `[]` when `"done" in decision or not agent_names`. -/
def orchestrator (raw : String) : List String :=
  let decision := pyLower (pyStrip raw)
  let agent_names := (pyWords (pyReplaceCommas decision)).filter (agentNames.contains ·)
  if pyIn "done" decision || agent_names.isEmpty then [] else agent_names

/-! ## Scheduler routing (`graph.py`, `route_from_orchestrator`) -/

/-- The failed-trading guard condition of `route_from_orchestrator`:
`"trader" in agents and results.get("trader", "").startswith("❌")`. -/
def traderFailed (agents : List String) (results : ResultMap) : Bool :=
  agents.contains "trader" && pyStartsWith (pyGetD results "trader" "") "❌"

/-- `route_from_orchestrator` (graph.py): interpret `next_agents` into the
label of the next node.  Empty → `"done"`; failed-trader guard → `"done"`;
one agent → that agent; `price` and `fundamental` both present →
`"both_analysts"`; otherwise first agent. -/
def route_from_orchestrator (agents : List String) (results : ResultMap) : String :=
  if agents.isEmpty then "done"
  else if traderFailed agents results then "done"
  else if agents.length = 1 then agents.headD ""
  else if agents.contains "price" && agents.contains "fundamental" then "both_analysts"
  else agents.headD ""

/-- Keys of the conditional-edge mapping passed to
`workflow.add_conditional_edges` in `create_graph`, with their targets. -/
def conditionalEdges : List (String × String) :=
  [("price", "price"), ("fundamental", "fundamental"), ("trader", "trader"),
   ("portfolio_advisor", "portfolio_advisor"), ("reporter", "reporter"),
   ("both_analysts", "both_analysts"), ("done", "synthesize")]

/-- The labels `route_from_orchestrator` may return. -/
def routeLabels : List String :=
  ["price", "fundamental", "trader", "portfolio_advisor", "reporter",
   "both_analysts", "done"]

/-- Nodes registered with `workflow.add_node` in `create_graph`. -/
def registeredNodes : List String :=
  ["manage_length", "orchestrator", "price", "fundamental", "trader",
   "portfolio_advisor", "reporter", "synthesize", "both_analysts"]

/-! ## History Compactor (`agents.py`, `manage_conversation_length`) -/

/-- `manage_conversation_length` (agents.py): below 10 messages return the
empty partial; otherwise summarize everything except the last 2 messages
via the external summarization collaborator (`summarizer`), and emit a
partial that appends one system summary message (with fresh id `newId`)
and removes every summarized message by id. -/
def manage_conversation_length (summarizer : List Msg → String) (newId : Nat)
    (messages : List Msg) : List MsgUpdate :=
  if messages.length < 10 then []
  else
    let messages_to_summarize := messages.take (messages.length - 2)
    MsgUpdate.add
        ⟨newId, Role.system,
          "Previous conversation summary: " ++ summarizer messages_to_summarize⟩ ::
      messages_to_summarize.map (fun m => MsgUpdate.remove m.id)

/-! ## Finalizer (`agents.py`, `synthesize_final_response`) -/

/-- Fallback answer when the Result Set is empty. -/
def fallbackMessage : String := "I need more information to help you."

/-- The fixed preference order in which `synthesize_final_response` collects
present Result Set values into `parts`. -/
def preferenceOrder : List String :=
  ["price", "fundamental", "trader", "portfolio_advisor"]

/-- Content of the most recent `HumanMessage` (the user query lookup loop). -/
def lastHumanQuery (messages : List Msg) : String :=
  match messages.reverse.find? (fun m => m.role == Role.user) with
  | some m => m.content
  | none => ""

/-- The recent-context string: contents of the last 5 messages, nonempty
ones only, each truncated to `truncLen` characters, joined by blank lines. -/
def recentContext (truncLen : Nat) (messages : List Msg) : String :=
  String.intercalate "\n\n"
    (((messages.drop (messages.length - 5)).filter (fun m => m.content != "")).map
      (fun m => String.mk (m.content.data.take truncLen)))

/-- The conversational prompt built by `synthesize_final_response`. -/
def conversationalPrompt (context query combined : String) : String :=
  "You are a financial analyst chatting with a client.\n\nRECENT CONVERSATION:\n"
    ++ context ++ "\n\nCURRENT QUESTION: \"" ++ query
    ++ "\"\n\nDATA AVAILABLE:\n" ++ combined
    ++ "\n\nCRITICAL: You MUST use the actual data provided above.\nInclude specific numbers: prices, P/E ratios, percentages, dates.\n\nRespond conversationally:\n- Use natural language (not formal report style)\n- Be detailed, in-depth and specific\n- Use the ACTUAL data from analysts\n- Answer directly and helpfully\n\nResponse:"

/-- `synthesize_final_response` (agents.py): if the `"reporter"` key is
present, forward its output verbatim as the assistant message; otherwise
collect present results in the fixed preference order; if none are present,
return the fixed fallback message; otherwise ask the external composition
collaborator (`llm`) with the built prompt.  Exactly one assistant message
is emitted. -/
def synthesize_final_response (llm : String → String) (newId : Nat)
    (messages : List Msg) (results : ResultMap) : List MsgUpdate :=
  match results "reporter" with
  | some r => [MsgUpdate.add ⟨newId, Role.assistant, r⟩]
  | none =>
    let parts := preferenceOrder.filterMap results
    if parts.isEmpty then [MsgUpdate.add ⟨newId, Role.assistant, fallbackMessage⟩]
    else
      let prompt := conversationalPrompt (recentContext 150 messages)
        (lastHumanQuery messages) (String.intercalate "\n\n" parts)
      [MsgUpdate.add ⟨newId, Role.assistant, llm prompt⟩]

/-! ## The scheduler loop (`create_graph`): orchestrator → agent → orchestrator -/

/-- The per-turn scheduler state seen by the routing loop. -/
structure SchedState : Type where
  results : ResultMap
  next_agents : List String

/-- Run one agent node: it writes its output under its own name and the
results reducer merges the partial in. -/
def runAgent (body : String → String) (name : String) (s : SchedState) : SchedState :=
  { s with results := resultsReducer s.results (singleResult name (body name)) }

/-- Execute the node selected by a routing label: the `both_analysts`
fan-out runs `price` and `fundamental` (their disjoint partials merged at
the barrier join), any other label runs that single agent. -/
def dispatchLabel (body : String → String) (label : String) (s : SchedState) :
    SchedState :=
  if label = "both_analysts" then runAgent body "fundamental" (runAgent body "price" s)
  else runAgent body label s

/-- A turn in progress or finished (finished = routed to `synthesize`). -/
inductive RunState : Type
  | running (s : SchedState)
  | finished (s : SchedState)

/-- Whether the turn is still looping through the orchestrator. -/
def RunState.isRunning : RunState → Bool
  | RunState.running _ => true
  | RunState.finished _ => false

/-- `iterateSched oracle body r0 n`: the state of the graph's
orchestrator→agent cycle after `n` routing passes, where pass `i` feeds the
decision collaborator's raw answer `oracle i` through the orchestrator's
parser, routes with `route_from_orchestrator`, and either finishes (label
`"done"`, edge to `synthesize`) or dispatches and loops back.  `create_graph`
installs no step counter: this recursion is the whole termination story. -/
def iterateSched (oracle : Nat → String) (body : String → String)
    (r0 : ResultMap) : Nat → RunState
  | 0 => RunState.running ⟨r0, []⟩
  | n + 1 =>
    match iterateSched oracle body r0 n with
    | RunState.finished s => RunState.finished s
    | RunState.running s =>
      let agents := orchestrator (oracle n)
      let s' : SchedState := ⟨s.results, agents⟩
      let label := route_from_orchestrator agents s'.results
      if label = "done" then RunState.finished s'
      else RunState.running (dispatchLabel body label s')

/-! ## Theorems -/

/-- C2: for every pair of partial Result Set updates `A` and `B` whose key
sets are disjoint, the `results` reducer is commutative: merging `A` then
`B` into a current Result Set yields the same Result Set as merging `B`
then `A`. -/
theorem results_reducer_comm_of_disjoint (current A B : ResultMap)
    (h : disjointR A B) :
    resultsReducer (resultsReducer current A) B
      = resultsReducer (resultsReducer current B) A := by
  funext k
  rcases h k with hA | hB
  · cases hB : B k <;> simp [resultsReducer, hA, hB]
  · cases hA : A k <;> simp [resultsReducer, hA, hB]

/-- Witness for C2 at the two concrete disjoint partials of the fan-out
pair. -/
theorem results_reducer_comm_of_disjoint_witness :
    disjointR (singleResult "price" "p1") (singleResult "fundamental" "f1")
      ∧ resultsReducer (resultsReducer emptyResults (singleResult "price" "p1"))
            (singleResult "fundamental" "f1")
          = resultsReducer (resultsReducer emptyResults (singleResult "fundamental" "f1"))
            (singleResult "price" "p1") := by
  have hd : disjointR (singleResult "price" "p1") (singleResult "fundamental" "f1") := by
    intro k
    by_cases hk : k = "price"
    · right; subst hk; rfl
    · left; simp [singleResult, hk]
  exact ⟨hd, results_reducer_comm_of_disjoint emptyResults _ _ hd⟩

/-- C3: whenever `next_agents` contains `"trader"` and the Result Set
already holds a trader entry starting with the failure marker `"❌"`,
`route_from_orchestrator` returns `"done"` (the edge to the finalize node)
and dispatches no work unit: a failed trade is never automatically
re-dispatched. -/
theorem trader_guard_routes_done (agents : List String) (results : ResultMap)
    (h1 : agents.contains "trader" = true)
    (h2 : pyStartsWith (pyGetD results "trader" "") "❌" = true) :
    route_from_orchestrator agents results = "done" := by
  cases agents with
  | nil => simp at h1
  | cons a rest =>
    have hg : traderFailed (a :: rest) results = true := by
      unfold traderFailed
      rw [h1, h2]
      rfl
    unfold route_from_orchestrator
    simp [hg]

/-- Witness for C3: a concrete pending trade after a failed trade. -/
theorem trader_guard_routes_done_witness :
    (["trader"] : List String).contains "trader" = true
      ∧ pyStartsWith (pyGetD (singleResult "trader" "❌ no buying power") "trader" "") "❌" = true
      ∧ route_from_orchestrator ["trader"]
          (singleResult "trader" "❌ no buying power") = "done" :=
  ⟨by decide, by decide, trader_guard_routes_done _ _ (by decide) (by decide)⟩

/-- C1 counterexample: a Pending Set that contains both `"price"` and
`"fundamental"` but also `"trader"` after a failure-marked trader result is
routed to `"done"`, not to the fan-out node, so the claim as stated (for
EVERY state whose Pending Set contains both names) is false. -/
theorem fanout_claim_counterexample :
    ((["price", "fundamental", "trader"] : List String).contains "price"
        && (["price", "fundamental", "trader"] : List String).contains "fundamental") = true
      ∧ route_from_orchestrator ["price", "fundamental", "trader"]
          (singleResult "trader" "❌ insufficient funds") ≠ "both_analysts" := by
  decide

/-- C1 (amended): if the Pending Set contains both `"price"` and
`"fundamental"` and the failed-trader guard does not fire, the Scheduler
routes to the fan-out node `"both_analysts"`; and merging the two
work units' one-key partials at the barrier join leaves both keys in the
Result Set, in either completion order. -/
theorem fanout_routing_and_barrier_merge :
    (∀ (agents : List String) (results : ResultMap),
        agents.contains "price" = true →
        agents.contains "fundamental" = true →
        traderFailed agents results = false →
        route_from_orchestrator agents results = "both_analysts")
      ∧ ∀ (current : ResultMap) (p f : String),
          (resultsReducer (resultsReducer current (singleResult "price" p))
              (singleResult "fundamental" f)) "price" = some p
          ∧ (resultsReducer (resultsReducer current (singleResult "price" p))
              (singleResult "fundamental" f)) "fundamental" = some f
          ∧ (resultsReducer (resultsReducer current (singleResult "fundamental" f))
              (singleResult "price" p)) "price" = some p
          ∧ (resultsReducer (resultsReducer current (singleResult "fundamental" f))
              (singleResult "price" p)) "fundamental" = some f := by
  constructor
  · intro agents results hp hf hg
    cases agents with
    | nil => simp at hp
    | cons a rest =>
      cases rest with
      | nil =>
        have ha : "price" = a := by simpa using hp
        have hb : "fundamental" = a := by simpa using hf
        rw [← ha] at hb
        exact absurd hb (by decide)
      | cons b rs =>
        unfold route_from_orchestrator
        simp only [hg, hp, hf, Bool.and_self, List.length_cons]
        simp
  · intro current p f
    exact ⟨rfl, rfl, rfl, rfl⟩

/-- Witness for C1 (amended) at a concrete two-element Pending Set. -/
theorem fanout_routing_witness :
    (["fundamental", "price"] : List String).contains "price" = true
      ∧ (["fundamental", "price"] : List String).contains "fundamental" = true
      ∧ traderFailed ["fundamental", "price"] emptyResults = false
      ∧ route_from_orchestrator ["fundamental", "price"] emptyResults = "both_analysts" :=
  ⟨by decide, by decide, by decide,
    fanout_routing_and_barrier_merge.1 _ _ (by decide) (by decide) (by decide)⟩

/-- C9 counterexample: a two-element Pending Set with no parallel group
whose first name is `"trader"` after a failure-marked trader result is
routed to `"done"`, not to its first name, so the claim as stated is
false. -/
theorem first_wins_claim_counterexample :
    2 ≤ (["trader", "price"] : List String).length
      ∧ ((["trader", "price"] : List String).contains "price"
          && (["trader", "price"] : List String).contains "fundamental") = false
      ∧ route_from_orchestrator ["trader", "price"]
          (singleResult "trader" "❌ order rejected") ≠ "trader" := by
  decide

/-- C9 (amended): when the failed-trader guard does not fire, a singleton
Pending Set dispatches its one work unit, and a Pending Set of two or more
names with no recognized parallel group (not both `"price"` and
`"fundamental"`) dispatches exactly its first name. -/
theorem first_wins_tiebreak (agents : List String) (results : ResultMap)
    (hg : traderFailed agents results = false) :
    (agents.length = 1 →
        route_from_orchestrator agents results = agents.headD "")
      ∧ (2 ≤ agents.length →
          (agents.contains "price" && agents.contains "fundamental") = false →
          route_from_orchestrator agents results = agents.headD "") := by
  cases agents with
  | nil =>
    refine ⟨?_, ?_⟩ <;> intro h <;> simp at h
  | cons a rest =>
    constructor
    · intro hlen
      have h0 : rest = [] := by simpa using hlen
      subst h0
      unfold route_from_orchestrator
      simp [hg]
    · intro hlen hnp
      cases rest with
      | nil => simp at hlen
      | cons b rs =>
        unfold route_from_orchestrator
        simp only [hg, hnp, List.length_cons]
        simp

/-- Witness for C9 (amended) at a concrete guard-free two-element Pending
Set. -/
theorem first_wins_tiebreak_witness :
    traderFailed ["reporter", "price"] emptyResults = false
      ∧ route_from_orchestrator ["reporter", "price"] emptyResults
          = (["reporter", "price"] : List String).headD "" :=
  ⟨by decide, (first_wins_tiebreak _ _ (by decide)).2 (by decide) (by decide)⟩

/-- C5 counterexample: on the raw decision text `"PRICE"` the raw text
contains no `"done"` marker and tokenizing the raw text itself yields no
recognized work-unit name, yet the orchestrator returns the non-empty
Pending Set `["price"]` (it lowercases first) — falsifying the claim's
"empty exactly when" condition stated on the raw text. -/
theorem parse_claim_counterexample :
    pyIn "done" "PRICE" = false
      ∧ (pyWords (pyReplaceCommas "PRICE")).filter (agentNames.contains ·) = []
      ∧ orchestrator "PRICE" = ["price"] := by
  decide

/-- C5 (amended): the orchestrator first strips and lowercases the raw
decision text; it then tokenizes on whitespace and commas and keeps only
recognized work-unit names, and the Pending Set is empty exactly when the
normalized text contains `"done"` or yields no recognized names (and is
otherwise the kept tokens); unparseable text terminates rather than
raising. -/
theorem parse_empty_iff (raw : String) :
    (orchestrator raw = [] ↔
        (pyIn "done" (pyLower (pyStrip raw)) = true
          ∨ (pyWords (pyReplaceCommas (pyLower (pyStrip raw)))).filter
              (agentNames.contains ·) = []))
      ∧ (orchestrator raw ≠ [] →
          orchestrator raw
            = (pyWords (pyReplaceCommas (pyLower (pyStrip raw)))).filter
                (agentNames.contains ·)) := by
  by_cases h1 : pyIn "done" (pyLower (pyStrip raw)) = true
  · have ho : orchestrator raw = [] := by
      unfold orchestrator
      simp only [h1, Bool.true_or]
      simp
    exact ⟨iff_of_true ho (Or.inl h1), fun hne => absurd ho hne⟩
  · by_cases h2 :
        (pyWords (pyReplaceCommas (pyLower (pyStrip raw)))).filter
          (agentNames.contains ·) = []
    · have ho : orchestrator raw = [] := by
        unfold orchestrator
        simp only [h2, List.isEmpty_nil, Bool.or_true]
        simp
      exact ⟨iff_of_true ho (Or.inr h2), fun hne => absurd ho hne⟩
    · have h1f : pyIn "done" (pyLower (pyStrip raw)) = false := by
        cases hb : pyIn "done" (pyLower (pyStrip raw)) with
        | false => rfl
        | true => exact absurd hb h1
      have he : ((pyWords (pyReplaceCommas (pyLower (pyStrip raw)))).filter
          (agentNames.contains ·)).isEmpty = false := by
        cases hfe : (pyWords (pyReplaceCommas (pyLower (pyStrip raw)))).filter
            (agentNames.contains ·) with
        | nil => exact absurd hfe h2
        | cons x xs => rfl
      have ho : orchestrator raw
          = (pyWords (pyReplaceCommas (pyLower (pyStrip raw)))).filter
              (agentNames.contains ·) := by
        unfold orchestrator
        simp only [h1f, he, Bool.or_false]
        simp
      refine ⟨?_, fun _ => ho⟩
      rw [ho]
      exact iff_of_false h2 (fun h => h.elim h1 h2)

/-- Witness for C5 (amended): a concrete comma-separated decision. -/
theorem parse_empty_iff_witness :
    orchestrator "price, fundamental" ≠ []
      ∧ orchestrator "price, fundamental"
          = (pyWords (pyReplaceCommas (pyLower (pyStrip "price, fundamental")))).filter
              (agentNames.contains ·) :=
  ⟨by decide, (parse_empty_iff "price, fundamental").2 (by decide)⟩

/-- Every recognized work-unit name is a routing label. -/
theorem agentNames_sub_routeLabels : ∀ x ∈ agentNames, x ∈ routeLabels := by
  decide

/-- Every element of the orchestrator's Pending Set is a recognized
work-unit name. -/
theorem orchestrator_mem_agentNames (raw : String) :
    ∀ a ∈ orchestrator raw, a ∈ agentNames := by
  intro a ha
  unfold orchestrator at ha
  by_cases hc : (pyIn "done" (pyLower (pyStrip raw))
      || ((pyWords (pyReplaceCommas (pyLower (pyStrip raw)))).filter
          (agentNames.contains ·)).isEmpty) = true
  · simp only [hc, if_true] at ha
    simp at ha
  · simp only [hc, if_false, Bool.not_eq_true] at ha
    rw [if_neg (by simp [hc])] at ha
    have := List.of_mem_filter ha
    simpa using this

/-- Whenever every pending name is recognized, the routing function returns
one of the conditional-edge labels. -/
theorem route_mem_routeLabels (agents : List String) (results : ResultMap)
    (h : ∀ a ∈ agents, a ∈ agentNames) :
    route_from_orchestrator agents results ∈ routeLabels := by
  cases agents with
  | nil =>
    show "done" ∈ routeLabels
    decide
  | cons a rest =>
    have ha : a ∈ routeLabels := agentNames_sub_routeLabels a (h a (by simp))
    unfold route_from_orchestrator
    split_ifs <;> first
      | decide
      | exact ha

/-- C10: the orchestrator's `next_agents` list contains only the five
recognized work-unit names, in the order they appeared in the decision
text (it is either empty or the order-preserving filter of the decision's
tokens); consequently every routing label computed from it is a key of the
conditional-edge mapping, and every conditional-edge target is a
registered node. -/
theorem next_agents_resolve (raw : String) (results : ResultMap) :
    (∀ a ∈ orchestrator raw, a ∈ agentNames)
      ∧ (orchestrator raw = []
          ∨ orchestrator raw
              = (pyWords (pyReplaceCommas (pyLower (pyStrip raw)))).filter
                  (agentNames.contains ·))
      ∧ (conditionalEdges.lookup
          (route_from_orchestrator (orchestrator raw) results)).isSome = true
      ∧ (∀ e ∈ conditionalEdges, e.2 ∈ registeredNodes) := by
  refine ⟨orchestrator_mem_agentNames raw, ?_, ?_, by decide⟩
  · by_cases hc : (pyIn "done" (pyLower (pyStrip raw))
        || ((pyWords (pyReplaceCommas (pyLower (pyStrip raw)))).filter
            (agentNames.contains ·)).isEmpty) = true
    · refine Or.inl ?_
      unfold orchestrator
      simp only [hc]
      simp
    · have hcf := hc
      rw [Bool.not_eq_true] at hcf
      refine Or.inr ?_
      unfold orchestrator
      simp only [hcf]
      simp
  · have hmem := route_mem_routeLabels (orchestrator raw) results
      (orchestrator_mem_agentNames raw)
    have hlook : ∀ s ∈ routeLabels, (conditionalEdges.lookup s).isSome = true := by
      decide
    exact hlook _ hmem

/-- Witness for C10 at a concrete decision text. -/
theorem next_agents_resolve_witness :
    "price" ∈ agentNames
      ∧ (conditionalEdges.lookup
          (route_from_orchestrator (orchestrator "price") emptyResults)).isSome = true :=
  ⟨(next_agents_resolve "price" emptyResults).1 "price" (by decide),
    (next_agents_resolve "price" emptyResults).2.2.1⟩

/-- C4: `create_graph` installs no step cap.  With a decision collaborator
that answers `"price"` on every routing pass, the orchestrator→price cycle
never reaches the finalize node: after any number `n` of routing passes the
turn is still running, for every agent behaviour and every starting Result
Set.  The spec requires termination after a configured number of steps with
a non-convergence notice; the code has no such bound. -/
theorem no_step_cap_nontermination (body : String → String) (r0 : ResultMap)
    (n : Nat) :
    (iterateSched (fun _ => "price") body r0 n).isRunning = true := by
  induction n with
  | zero => rfl
  | succ k ih =>
    cases hk : iterateSched (fun _ => "price") body r0 k with
    | finished s =>
      rw [hk] at ih
      simp [RunState.isRunning] at ih
    | running s =>
      simp only [iterateSched, hk]
      rfl

/-- Extracting removed ids from a pure removal partial recovers the ids. -/
theorem removeIds_map_remove (l : List Msg) :
    removeIds (l.map fun m => MsgUpdate.remove m.id) = l.map Msg.id := by
  induction l with
  | nil => rfl
  | cons x xs ih =>
    simp only [List.map_cons, removeIds, List.filterMap_cons] at *
    rw [ih]

/-- A pure removal partial adds no messages. -/
theorem addedMsgs_map_remove (l : List Msg) :
    addedMsgs (l.map fun m => MsgUpdate.remove m.id) = [] := by
  induction l with
  | nil => rfl
  | cons x xs ih =>
    simp only [List.map_cons, addedMsgs, List.filterMap_cons] at *
    exact ih

/-- `removeIds` skips an added message. -/
theorem removeIds_cons_add (m : Msg) (rest : List MsgUpdate) :
    removeIds (MsgUpdate.add m :: rest) = removeIds rest := by
  simp [removeIds, List.filterMap_cons]

/-- `addedMsgs` collects an added message. -/
theorem addedMsgs_cons_add (m : Msg) (rest : List MsgUpdate) :
    addedMsgs (MsgUpdate.add m :: rest) = m :: addedMsgs rest := by
  simp [addedMsgs, List.filterMap_cons]

/-- C6: for every Conversation Log with pairwise-distinct entry ids, the
History Compactor never removes the final 2 entries and never includes
them in the slice sent for summarization; and when the 10-entry threshold
is reached, the emitted partial removes exactly the ids of the entries
preceding the last 2 and appends exactly one system-originated summary
entry. -/
theorem compaction_preserves_recent (summarizer : List Msg → String) (newId : Nat)
    (messages : List Msg) (hnd : (messages.map Msg.id).Nodup) :
    (∀ m ∈ messages.drop (messages.length - 2),
        MsgUpdate.remove m.id ∉ manage_conversation_length summarizer newId messages
          ∧ m ∉ messages.take (messages.length - 2))
      ∧ (10 ≤ messages.length →
          removeIds (manage_conversation_length summarizer newId messages)
              = (messages.take (messages.length - 2)).map Msg.id
            ∧ addedMsgs (manage_conversation_length summarizer newId messages)
              = [⟨newId, Role.system,
                  "Previous conversation summary: "
                    ++ summarizer (messages.take (messages.length - 2))⟩]) := by
  have hsplit : (messages.take (messages.length - 2)).map Msg.id
      ++ (messages.drop (messages.length - 2)).map Msg.id = messages.map Msg.id := by
    rw [← List.map_append, List.take_append_drop]
  have hnd' : ((messages.take (messages.length - 2)).map Msg.id
      ++ (messages.drop (messages.length - 2)).map Msg.id).Nodup := by
    rw [hsplit]
    exact hnd
  have hdisj : ∀ i ∈ (messages.drop (messages.length - 2)).map Msg.id,
      i ∉ (messages.take (messages.length - 2)).map Msg.id := by
    intro i hi hmem
    exact (List.nodup_append.mp hnd').2.2 hmem hi
  constructor
  · intro m hm
    have hid : m.id ∈ (messages.drop (messages.length - 2)).map Msg.id :=
      List.mem_map_of_mem Msg.id hm
    constructor
    · intro hc
      by_cases hlen : messages.length < 10
      · rw [manage_conversation_length, if_pos hlen] at hc
        simp at hc
      · rw [manage_conversation_length, if_neg hlen] at hc
        rcases List.mem_cons.mp hc with h | h
        · exact MsgUpdate.noConfusion h
        · rcases List.mem_map.mp h with ⟨m', hm', he⟩
          have hide : m'.id = m.id := by
            injection he with hide
          exact hdisj m.id hid (hide ▸ List.mem_map_of_mem Msg.id hm')
    · intro hmem
      exact hdisj m.id hid (List.mem_map_of_mem Msg.id hmem)
  · intro hlen
    have hnot : ¬ messages.length < 10 := by omega
    rw [manage_conversation_length, if_neg hnot]
    constructor
    · rw [removeIds_cons_add, removeIds_map_remove]
    · rw [addedMsgs_cons_add, addedMsgs_map_remove]

/-- Witness for C6 at a concrete 10-entry log with distinct ids. -/
theorem compaction_preserves_recent_witness :
    (((List.range 10).map (fun i => (⟨i, Role.user, "hi"⟩ : Msg))).map Msg.id).Nodup
      ∧ removeIds (manage_conversation_length (fun _ => "S") 99
            ((List.range 10).map (fun i => (⟨i, Role.user, "hi"⟩ : Msg))))
          = (((List.range 10).map (fun i => (⟨i, Role.user, "hi"⟩ : Msg))).take
              (((List.range 10).map (fun i => (⟨i, Role.user, "hi"⟩ : Msg))).length - 2)).map
              Msg.id :=
  ⟨by decide,
    ((compaction_preserves_recent (fun _ => "S") 99 _ (by decide)).2 (by decide)).1⟩

/-- C7: below the 10-entry threshold the History Compactor is a no-op
returning the empty partial, invoking it twice (the second time on the log
with the empty partial applied) yields two empty partials, and any
non-empty partial can only arise at threshold length 10 or more. -/
theorem compactor_noop_below_threshold (summarizer : List Msg → String)
    (newId : Nat) (messages : List Msg) :
    (messages.length < 10 →
        manage_conversation_length summarizer newId messages = []
          ∧ manage_conversation_length summarizer newId
              (applyUpdates messages
                (manage_conversation_length summarizer newId messages)) = [])
      ∧ (manage_conversation_length summarizer newId messages ≠ [] →
          10 ≤ messages.length) := by
  constructor
  · intro h
    have h1 : manage_conversation_length summarizer newId messages = [] := by
      rw [manage_conversation_length, if_pos h]
    refine ⟨h1, ?_⟩
    rw [h1]
    show manage_conversation_length summarizer newId messages = []
    exact h1
  · intro hne
    by_contra hlt
    have h : messages.length < 10 := by omega
    exact hne (by rw [manage_conversation_length, if_pos h])

/-- Witness for C7 at a concrete one-entry log. -/
theorem compactor_noop_below_threshold_witness :
    ([(⟨0, Role.user, "q"⟩ : Msg)] : List Msg).length < 10
      ∧ manage_conversation_length (fun _ => "S") 7 [(⟨0, Role.user, "q"⟩ : Msg)] = [] :=
  ⟨by decide,
    ((compactor_noop_below_threshold (fun _ => "S") 7 _).1 (by decide)).1⟩

/-- C8: the Finalizer always emits exactly one assistant-originated entry;
when the `"reporter"` key is present its output is forwarded verbatim;
when the Result Set holds none of the preference-order keys (and no
reporter) the entry is the fixed fallback message; otherwise the entry is
the composition collaborator's answer over the present values concatenated
in the fixed preference order. -/
theorem synthesize_shape (llm : String → String) (newId : Nat)
    (messages : List Msg) (results : ResultMap) :
    (∃ c, synthesize_final_response llm newId messages results
        = [MsgUpdate.add ⟨newId, Role.assistant, c⟩])
      ∧ (∀ r, results "reporter" = some r →
          synthesize_final_response llm newId messages results
            = [MsgUpdate.add ⟨newId, Role.assistant, r⟩])
      ∧ (results "reporter" = none → preferenceOrder.filterMap results = [] →
          synthesize_final_response llm newId messages results
            = [MsgUpdate.add ⟨newId, Role.assistant, fallbackMessage⟩])
      ∧ (results "reporter" = none → preferenceOrder.filterMap results ≠ [] →
          synthesize_final_response llm newId messages results
            = [MsgUpdate.add ⟨newId, Role.assistant,
                llm (conversationalPrompt (recentContext 150 messages)
                  (lastHumanQuery messages)
                  (String.intercalate "\n\n" (preferenceOrder.filterMap results)))⟩]) := by
  cases hrep : results "reporter" with
  | some r =>
    have ho : synthesize_final_response llm newId messages results
        = [MsgUpdate.add ⟨newId, Role.assistant, r⟩] := by
      unfold synthesize_final_response
      rw [hrep]
    refine ⟨⟨r, ho⟩, ?_, ?_, ?_⟩
    · intro r' hr'
      injection hr' with hr'
      rw [← hr']
      exact ho
    · intro hnone
      exact Option.noConfusion hnone
    · intro hnone
      exact Option.noConfusion hnone
  | none =>
    by_cases hp : preferenceOrder.filterMap results = []
    · have ho : synthesize_final_response llm newId messages results
          = [MsgUpdate.add ⟨newId, Role.assistant, fallbackMessage⟩] := by
        unfold synthesize_final_response
        rw [hrep]
        simp only [hp, List.isEmpty_nil]
        simp
      refine ⟨⟨fallbackMessage, ho⟩, ?_, fun _ _ => ho, ?_⟩
      · intro r' hr'
        exact Option.noConfusion hr'
      · intro _ hne
        exact absurd hp hne
    · have he : (preferenceOrder.filterMap results).isEmpty = false := by
        cases hfe : preferenceOrder.filterMap results with
        | nil => exact absurd hfe hp
        | cons x xs => rfl
      have ho : synthesize_final_response llm newId messages results
          = [MsgUpdate.add ⟨newId, Role.assistant,
              llm (conversationalPrompt (recentContext 150 messages)
                (lastHumanQuery messages)
                (String.intercalate "\n\n" (preferenceOrder.filterMap results)))⟩] := by
        unfold synthesize_final_response
        rw [hrep]
        simp only [he]
        simp
      refine ⟨⟨_, ho⟩, ?_, ?_, fun _ _ => ho⟩
      · intro r' hr'
        exact Option.noConfusion hr'
      · intro _ hnil
        exact absurd hnil hp

/-- Witness for C8: a Result Set holding a reporter entry is forwarded
verbatim. -/
theorem synthesize_shape_witness :
    (singleResult "reporter" "FULL REPORT" : ResultMap) "reporter" = some "FULL REPORT"
      ∧ synthesize_final_response (fun s => s) 3 []
            (singleResult "reporter" "FULL REPORT")
          = [MsgUpdate.add ⟨3, Role.assistant, "FULL REPORT"⟩] :=
  ⟨rfl, (synthesize_shape (fun s => s) 3 [] _).2.1 "FULL REPORT" rfl⟩

end FinanceAnalysts
